import Mathlib

/-!
Verification of the curve/point-generation core of `curvipy` (`_curve.py`):
the `Curve` variants `Function`, `ParametricFunction` and `TransformedCurve`
and their `points(interval)` operation.

Numbers are modelled as rationals (`ℚ`).  Python distinguishes tuples from
lists structurally (`(1, 2) == [1, 2]` is `False`); since `Function.points`
and `ParametricFunction.points` emit 2-tuples while `TransformedCurve.points`
emits 2-element lists, a produced point is modelled as a `PyPair`, tagged by
whether it is a tuple or a list.
-/

namespace Curvipy

/-- A two-element Python sequence holding the coordinates of a point:
either a 2-tuple `(x, y)` or a 2-element list `[x, y]`.  Python `==` never
identifies a tuple with a list, so the tag participates in equality. -/
inductive PyPair where
  | tup (x y : ℚ)
  | lst (x y : ℚ)
deriving DecidableEq, Repr

/-- Subscript `p[0]` of a two-element Python sequence. -/
def PyPair.fst : PyPair → ℚ
  | .tup x _ => x
  | .lst x _ => x

/-- Subscript `p[1]` of a two-element Python sequence. -/
def PyPair.snd : PyPair → ℚ
  | .tup _ y => y
  | .lst _ y => y

/-- Whether the pair is a Python tuple. -/
def PyPair.isTup : PyPair → Bool
  | .tup _ _ => true
  | .lst _ _ => false

/-- Whether the pair is a Python list. -/
def PyPair.isLst : PyPair → Bool
  | .tup _ _ => false
  | .lst _ _ => true

/-- Numeric content of a pair, forgetting the tuple/list tag. -/
def PyPair.coords (p : PyPair) : ℚ × ℚ := (p.fst, p.snd)

/-- A 2x2 matrix `((m00, m01), (m10, m11))`; `M.1.1` is `matrix[0][0]`,
`M.1.2` is `matrix[0][1]`, `M.2.1` is `matrix[1][0]`, `M.2.2` is
`matrix[1][1]`. -/
abbrev Mat2 : Type := (ℚ × ℚ) × (ℚ × ℚ)

/-- Modelled from the spec: the `Interval` collaborator lives in
`_interval.py`, which is outside the verified core; only its consumed
iteration contract is modelled.  The spec describes it as producing a
finite, ordered, restartable sequence of numeric sample points over
`[start, end]` at a fixed step. -/
structure Interval where
  start : ℚ
  stop : ℚ
  step : ℚ
deriving DecidableEq, Repr

/-- Modelled from the spec: the finite ordered sample sequence the interval
yields when iterated — `start, start + step, start + 2·step, …` while the
value stays within `[start, stop]` (empty when the step is not positive or
the range is empty). -/
def Interval.samples (I : Interval) : List ℚ :=
  if 0 < I.step ∧ I.start ≤ I.stop then
    (List.range (⌊(I.stop - I.start) / I.step⌋.toNat + 1)).map
      (fun k => I.start + (k : ℚ) * I.step)
  else []

/-- The `Curve` hierarchy of `_curve.py`: `Function` holds a scalar mapping
`f : number → number`, `ParametricFunction` holds a vector-valued mapping,
and `TransformedCurve` holds a 2x2 matrix together with a wrapped curve
(any variant, so wrapping nests to arbitrary depth). -/
inductive Curve where
  | Function (function : ℚ → ℚ)
  | ParametricFunction (parametric_function : ℚ → ℚ × ℚ)
  | TransformedCurve (matrix : Mat2) (curve : Curve)

/-- Row-times-point product of `TransformedCurve.points`, which appends
`[point[0]*matrix[0][0] + point[1]*matrix[0][1],
  point[0]*matrix[1][0] + point[1]*matrix[1][1]]` — a Python list, not a
tuple. -/
def applyMat (M : Mat2) (p : PyPair) : PyPair :=
  .lst (p.fst * M.1.1 + p.snd * M.1.2) (p.fst * M.2.1 + p.snd * M.2.2)

/-- The `points` operation of each variant, translated from `_curve.py`:
`Function.points` is the comprehension `[(x, self.function(x)) for x in
interval]`, `ParametricFunction.points` is
`[self.parametric_function(t) for t in interval]` (the function's tuple is
emitted directly), and `TransformedCurve.points` first delegates to the
wrapped curve and then runs the accumulation loop
`points = []; for point in ...: points.append([...])`. -/
def Curve.points : Curve → Interval → List PyPair
  | .Function f, interval =>
      interval.samples.map (fun x => .tup x (f x))
  | .ParametricFunction f, interval =>
      interval.samples.map (fun t => .tup (f t).1 (f t).2)
  | .TransformedCurve matrix curve, interval =>
      (curve.points interval).foldl (fun acc point => acc ++ [applyMat matrix point]) []

/-- The point the curve derives from a single sample value (used to state
that the i-th output point is derived from the i-th sample). -/
def Curve.pointFromSample : Curve → ℚ → PyPair
  | .Function f, x => .tup x (f x)
  | .ParametricFunction f, t => .tup (f t).1 (f t).2
  | .TransformedCurve matrix curve, x => applyMat matrix (curve.pointFromSample x)

/-- Product of two 2x2 matrices, the outer matrix `A` applied after `B`. -/
def matMul (A B : Mat2) : Mat2 :=
  ((A.1.1 * B.1.1 + A.1.2 * B.2.1, A.1.1 * B.1.2 + A.1.2 * B.2.2),
   (A.2.1 * B.1.1 + A.2.2 * B.2.1, A.2.1 * B.1.2 + A.2.2 * B.2.2))

/-- The identity 2x2 matrix `((1, 0), (0, 1))`. -/
def idMat : Mat2 := ((1, 0), (0, 1))

/-- The zero 2x2 matrix `((0, 0), (0, 0))`. -/
def zeroMat : Mat2 := ((0, 0), (0, 0))

-- The accumulation loop of `TransformedCurve.points` builds the mapped list.
theorem foldl_append_eq_map (f : PyPair → PyPair) (l acc : List PyPair) :
    l.foldl (fun a p => a ++ [f p]) acc = acc ++ l.map f := by
  induction l generalizing acc with
  | nil => simp
  | cons p l ih => simp [List.foldl_cons, ih]

theorem transformed_points_eq_map (M : Mat2) (c : Curve) (I : Interval) :
    (Curve.TransformedCurve M c).points I = (c.points I).map (applyMat M) := by
  simpa using foldl_append_eq_map (applyMat M) (c.points I) []

theorem points_eq_map_pointFromSample (c : Curve) (I : Interval) :
    c.points I = I.samples.map c.pointFromSample := by
  induction c with
  | Function f => rfl
  | ParametricFunction f => rfl
  | TransformedCurve M c ih =>
      rw [transformed_points_eq_map, ih, List.map_map]
      rfl

/-- Left-to-right evaluation of a Python list comprehension whose body may
raise: each element is evaluated in order and the first failure aborts the
whole call, so no prefix of the result is ever returned. -/
def mapE (g : ℚ → Except String PyPair) : List ℚ → Except String (List PyPair)
  | [] => .ok []
  | x :: xs =>
    match g x with
    | .error e => .error e
    | .ok p =>
      match mapE g xs with
      | .error e => .error e
      | .ok ps => .ok (p :: ps)

/-- The `Curve` hierarchy again, with the user-supplied callables allowed to
raise (modelled as `Except String`), to state failure propagation. -/
inductive CurveE where
  | Function (function : ℚ → Except String ℚ)
  | ParametricFunction (parametric_function : ℚ → Except String (ℚ × ℚ))
  | TransformedCurve (matrix : Mat2) (curve : CurveE)

/-- The `points` operation when user-supplied callables may raise: the
comprehensions of `Function.points` and `ParametricFunction.points` abort on
the first raising sample, and `TransformedCurve.points` first delegates to
the wrapped curve — a failure there propagates before the (total) arithmetic
loop runs. -/
def CurveE.points : CurveE → Interval → Except String (List PyPair)
  | .Function f, interval =>
      mapE (fun x => (f x).map (fun y => .tup x y)) interval.samples
  | .ParametricFunction f, interval =>
      mapE (fun t => (f t).map (fun v => .tup v.1 v.2)) interval.samples
  | .TransformedCurve matrix curve, interval =>
      (curve.points interval).map
        (fun ps => ps.foldl (fun acc point => acc ++ [applyMat matrix point]) [])

theorem mapE_error_of_first (g : ℚ → Except String PyPair) (pre : List ℚ)
    (x : ℚ) (post : List ℚ) (e : String)
    (hpre : ∀ a ∈ pre, ∃ p, g a = .ok p) (hx : g x = .error e) :
    mapE g (pre ++ x :: post) = .error e := by
  induction pre with
  | nil => simp [mapE, hx]
  | cons a pre ih =>
      obtain ⟨p, hp⟩ := hpre a (List.mem_cons_self a pre)
      have hrest := ih (fun b hb => hpre b (List.mem_cons_of_mem a hb))
      simp [mapE, hp, hrest]

-- Concrete intervals used by witnesses, with their evaluated sample lists.
theorem samples_one_three : (Interval.mk 1 3 1).samples = [1, 2, 3] := by
  rw [Interval.samples, if_pos (by norm_num)]
  rw [show ⌊((3 : ℚ) - 1) / 1⌋ = 2 by norm_num]
  rw [show ((2 : ℤ).toNat + 1) = 3 by rfl]
  rw [show List.range 3 = [0, 1, 2] by rfl]
  norm_num

theorem samples_zero_one : (Interval.mk 0 1 1).samples = [0, 1] := by
  rw [Interval.samples, if_pos (by norm_num)]
  rw [show ⌊((1 : ℚ) - 0) / 1⌋ = 1 by norm_num]
  rw [show ((1 : ℤ).toNat + 1) = 2 by rfl]
  rw [show List.range 2 = [0, 1] by rfl]
  norm_num

theorem samples_zero_zero : (Interval.mk 0 0 1).samples = [0] := by
  rw [Interval.samples, if_pos (by norm_num)]
  rw [show ⌊((0 : ℚ) - 0) / 1⌋ = 0 by norm_num]
  rw [show ((0 : ℤ).toNat + 1) = 1 by rfl]
  rw [show List.range 1 = [0] by rfl]
  norm_num

theorem samples_zero_two : (Interval.mk 0 2 1).samples = [0, 1, 2] := by
  rw [Interval.samples, if_pos (by norm_num)]
  rw [show ⌊((2 : ℚ) - 0) / 1⌋ = 2 by norm_num]
  rw [show ((2 : ℤ).toNat + 1) = 3 by rfl]
  rw [show List.range 3 = [0, 1, 2] by rfl]
  norm_num

theorem samples_zero_five_halves : (Interval.mk 0 (5 / 2) 1).samples = [0, 1, 2] := by
  rw [Interval.samples, if_pos (by norm_num)]
  rw [show ⌊((5 / 2 : ℚ) - 0) / 1⌋ = 2 by norm_num]
  rw [show ((2 : ℤ).toNat + 1) = 3 by rfl]
  rw [show List.range 3 = [0, 1, 2] by rfl]
  norm_num

theorem samples_neg_one_one : (Interval.mk (-1) 1 1).samples = [-1, 0, 1] := by
  rw [Interval.samples, if_pos (by norm_num)]
  rw [show ⌊((1 : ℚ) - -1) / 1⌋ = 2 by norm_num]
  rw [show ((2 : ℤ).toNat + 1) = 3 by rfl]
  rw [show List.range 3 = [0, 1, 2] by rfl]
  norm_num

theorem coords_of_identity_transform (c : Curve) (I : Interval) :
    ((Curve.TransformedCurve idMat c).points I).map PyPair.coords =
      (c.points I).map PyPair.coords := by
  rw [transformed_points_eq_map, List.map_map]
  have h : PyPair.coords ∘ applyMat idMat = PyPair.coords := by
    funext p
    cases p <;> simp [applyMat, idMat, PyPair.coords, PyPair.fst, PyPair.snd]
  rw [h]

/-- C1: for every curve variant (`Function`, `ParametricFunction`,
`TransformedCurve`) and every interval, `points(interval)` returns a
sequence whose length equals the number of samples the interval yields, and
the i-th output point is the one derived from the i-th sample (order is
preserved, the output is exactly the sample list mapped through the curve's
per-sample point). -/
theorem points_length_and_order (c : Curve) (I : Interval) :
    (c.points I).length = I.samples.length ∧
    c.points I = I.samples.map c.pointFromSample := by
  refine ⟨?_, points_eq_map_pointFromSample c I⟩
  rw [points_eq_map_pointFromSample]
  exact List.length_map _ _

/-- C2: for every interval `I` and scalar function `f`,
`Function(f).points(I)` has as many points as `I` has samples, and the i-th
output point is the tuple whose first coordinate is the i-th sample `x_i`
and whose second coordinate is `f(x_i)`. -/
theorem function_points_pairs_sample_with_value (f : ℚ → ℚ) (I : Interval) :
    ((Curve.Function f).points I).length = I.samples.length ∧
    ∀ (i : ℕ) (x : ℚ), I.samples[i]? = some x →
      ((Curve.Function f).points I)[i]? = some (.tup x (f x)) := by
  refine ⟨List.length_map _ _, fun i x h => ?_⟩
  simp [Curve.points, List.getElem?_map, h]

/-- C2 witness: over the interval with samples `[1, 2, 3]`, the point at
index 1 of `Function(fun x => x * x).points` is `(2, 4)`. -/
theorem function_points_pairs_sample_with_value_witness :
    ((Curve.Function (fun x => x * x)).points ⟨1, 3, 1⟩)[1]? =
      some (.tup 2 (2 * 2)) :=
  (function_points_pairs_sample_with_value (fun x => x * x) ⟨1, 3, 1⟩).2 1 2
    (by rw [samples_one_three]; rfl)

/-- C3: for every interval `I` and vector-valued function `g`,
`ParametricFunction(g).points(I)` is exactly `[g(t) for t in I]` — the tuple
returned by `g` is emitted directly, so the first coordinate of the i-th
output point is the first component of `g(t_i)`, not the sample `t_i`
itself. -/
theorem parametric_points_eq_values (g : ℚ → ℚ × ℚ) (I : Interval) :
    (Curve.ParametricFunction g).points I =
      I.samples.map (fun t => PyPair.tup (g t).1 (g t).2) ∧
    ∀ (i : ℕ) (t : ℚ), I.samples[i]? = some t →
      ((Curve.ParametricFunction g).points I)[i]? =
        some (.tup (g t).1 (g t).2) := by
  refine ⟨rfl, fun i t h => ?_⟩
  simp [Curve.points, List.getElem?_map, h]

/-- C3 witness: over the interval with samples `[0, 1]`, the point at
index 0 of `ParametricFunction(fun t => (t + 1, 2 * t)).points` is `(1, 0)`
— the first coordinate is `g(0).1 = 1`, not the sample `0`. -/
theorem parametric_points_eq_values_witness :
    ((Curve.ParametricFunction (fun t => (t + 1, 2 * t))).points ⟨0, 1, 1⟩)[0]? =
      some (.tup ((0 : ℚ) + 1, 2 * (0 : ℚ)).1 ((0 : ℚ) + 1, 2 * (0 : ℚ)).2) :=
  (parametric_points_eq_values (fun t => (t + 1, 2 * t)) ⟨0, 1, 1⟩).2 0 0
    (by rw [samples_zero_one]; rfl)

/-- C4: for every 2x2 matrix `M`, wrapped curve `C` and interval `I`,
`TransformedCurve(M, C).points(I)` is the list `P = C.points(I)` with each
point `(px, py)` mapped, in order, to
`(px * M[0][0] + py * M[0][1], px * M[1][0] + py * M[1][1])`; the output has
the same length (and order) as `P`. -/
theorem transformed_points_are_matrix_products (M : Mat2) (c : Curve) (I : Interval) :
    (Curve.TransformedCurve M c).points I =
      (c.points I).map (fun p =>
        PyPair.lst (p.fst * M.1.1 + p.snd * M.1.2)
                   (p.fst * M.2.1 + p.snd * M.2.2)) ∧
    ((Curve.TransformedCurve M c).points I).length = (c.points I).length := by
  have h := transformed_points_eq_map M c I
  refine ⟨h, ?_⟩
  rw [h]
  exact List.length_map _ _

/-- C5 counterexample: with the identity matrix, the curve
`C = Function(fun x => x)` and the interval with sample list `[0]`,
`TransformedCurve(((1,0),(0,1)), C).points(I)` is `[[0, 0]]` (a list of
Python lists) while `C.points(I)` is `[(0, 0)]` (a list of tuples), so the
two results are not equal. -/
theorem transformed_identity_not_structurally_equal :
    (Curve.TransformedCurve idMat (Curve.Function (fun x => x))).points ⟨0, 0, 1⟩ ≠
      (Curve.Function (fun x => x)).points ⟨0, 0, 1⟩ := by
  have h1 : (Curve.TransformedCurve idMat (Curve.Function (fun x => x))).points ⟨0, 0, 1⟩ =
      [PyPair.lst 0 0] := by
    rw [transformed_points_eq_map]
    simp [Curve.points, samples_zero_zero, applyMat, idMat, PyPair.fst, PyPair.snd]
  have h2 : (Curve.Function (fun x : ℚ => x)).points ⟨0, 0, 1⟩ = [PyPair.tup 0 0] := by
    simp [Curve.points, samples_zero_zero]
  rw [h1, h2]
  simp

/-- C5 amended: for every curve `C` and interval `I`,
`TransformedCurve(((1,0),(0,1)), C).points(I)` equals `C.points(I)`
coordinatewise — same length, same order, i-th point with the same
coordinates — though the transformed points are emitted as Python lists
rather than tuples, so the sequences need not be structurally equal. -/
theorem transformed_identity_preserves_coords (c : Curve) (I : Interval) :
    ((Curve.TransformedCurve idMat c).points I).map PyPair.coords =
      (c.points I).map PyPair.coords :=
  coords_of_identity_transform c I

/-- C6: for all 2x2 matrices `M1`, `M2`, every curve `C` (so also nested
`TransformedCurve`s, to arbitrary depth) and every interval `I`,
`TransformedCurve(M2, TransformedCurve(M1, C)).points(I)` equals
`TransformedCurve(M2 x M1, C).points(I)`, the outer matrix applied to the
result of the inner (exact equality over the rationals). -/
theorem transformed_composition_eq_product (M2 M1 : Mat2) (c : Curve) (I : Interval) :
    (Curve.TransformedCurve M2 (Curve.TransformedCurve M1 c)).points I =
      (Curve.TransformedCurve (matMul M2 M1) c).points I := by
  rw [transformed_points_eq_map, transformed_points_eq_map,
    transformed_points_eq_map, List.map_map]
  refine List.map_congr_left (fun p _ => ?_)
  cases p <;>
    simp only [Function.comp_apply, applyMat, matMul, PyPair.fst, PyPair.snd,
      PyPair.lst.injEq] <;>
    constructor <;> ring

/-- C7: for every curve `C` and every interval with at least one sample,
`TransformedCurve(((0,0),(0,0)), C).points(I)` is a non-empty sequence in
which every point has coordinates `(0, 0)`, whatever the wrapped curve
produced (the points themselves are the Python lists `[0, 0]`). -/
theorem zero_matrix_maps_all_points_to_origin (c : Curve) (I : Interval)
    (h : I.samples ≠ []) :
    (Curve.TransformedCurve zeroMat c).points I ≠ [] ∧
    ∀ p ∈ (Curve.TransformedCurve zeroMat c).points I, p.coords = (0, 0) := by
  constructor
  · rw [transformed_points_eq_map, points_eq_map_pointFromSample]
    simpa using h
  · intro p hp
    rw [transformed_points_eq_map] at hp
    obtain ⟨q, _, rfl⟩ := List.mem_map.mp hp
    cases q <;>
      simp [applyMat, zeroMat, PyPair.coords, PyPair.fst, PyPair.snd]

/-- C7 witness: transforming `Function(fun x => x + 5)` by the zero matrix
over the interval with sample list `[0]` yields a non-empty output whose
points all have coordinates `(0, 0)`. -/
theorem zero_matrix_maps_all_points_to_origin_witness :
    (Curve.TransformedCurve zeroMat (Curve.Function (fun x => x + 5))).points
        ⟨0, 0, 1⟩ ≠ [] ∧
    ∀ p ∈ (Curve.TransformedCurve zeroMat (Curve.Function (fun x => x + 5))).points
        ⟨0, 0, 1⟩, p.coords = (0, 0) :=
  zero_matrix_maps_all_points_to_origin (Curve.Function (fun x => x + 5))
    ⟨0, 0, 1⟩ (by rw [samples_zero_zero]; simp)

/-- C8: failure propagation.  If the user-supplied function of a `Function`
raises at some sample (all earlier samples succeeding), the whole
`points(interval)` call fails with exactly that error and returns no partial
result; the same holds for `ParametricFunction`; and `TransformedCurve`
propagates unchanged any failure raised while sampling its wrapped curve. -/
theorem points_failure_propagation :
    (∀ (f : ℚ → Except String ℚ) (I : Interval) (pre : List ℚ) (x : ℚ)
       (post : List ℚ) (e : String),
       I.samples = pre ++ x :: post →
       (∀ a ∈ pre, ∃ b, f a = .ok b) →
       f x = .error e →
       (CurveE.Function f).points I = .error e) ∧
    (∀ (g : ℚ → Except String (ℚ × ℚ)) (I : Interval) (pre : List ℚ) (t : ℚ)
       (post : List ℚ) (e : String),
       I.samples = pre ++ t :: post →
       (∀ a ∈ pre, ∃ v, g a = .ok v) →
       g t = .error e →
       (CurveE.ParametricFunction g).points I = .error e) ∧
    (∀ (M : Mat2) (c : CurveE) (I : Interval) (e : String),
       c.points I = .error e →
       (CurveE.TransformedCurve M c).points I = .error e) := by
  refine ⟨?_, ?_, ?_⟩
  · intro f I pre x post e hs hpre hx
    simp only [CurveE.points]
    rw [hs]
    exact mapE_error_of_first _ pre x post e
      (fun a ha => by
        obtain ⟨b, hb⟩ := hpre a ha
        exact ⟨.tup a b, by rw [hb]; rfl⟩)
      (by rw [hx]; rfl)
  · intro g I pre t post e hs hpre ht
    simp only [CurveE.points]
    rw [hs]
    exact mapE_error_of_first _ pre t post e
      (fun a ha => by
        obtain ⟨v, hv⟩ := hpre a ha
        exact ⟨.tup v.1 v.2, by rw [hv]; rfl⟩)
      (by rw [ht]; rfl)
  · intro M c I e h
    simp only [CurveE.points]
    rw [h]
    rfl

/-- C8 witness: a function raising exactly at `0`, sampled over the interval
with sample list `[-1, 0, 1]` (the sample before `0` succeeding), makes the
whole `points` call fail with that error — no partial list is returned. -/
theorem points_failure_propagation_witness :
    (CurveE.Function
        (fun x => if x = 0 then .error "ZeroDivisionError" else .ok 1)).points
      ⟨-1, 1, 1⟩ = .error "ZeroDivisionError" :=
  points_failure_propagation.1
    (fun x => if x = 0 then .error "ZeroDivisionError" else .ok 1)
    ⟨-1, 1, 1⟩ [-1] 0 [1] "ZeroDivisionError"
    (by rw [samples_neg_one_one]; rfl)
    (by
      intro a ha
      refine ⟨1, ?_⟩
      rw [List.mem_singleton] at ha
      subst ha
      show (if (-1 : ℚ) = 0 then Except.error "ZeroDivisionError" else Except.ok 1) =
        Except.ok 1
      rw [if_neg (by norm_num)])
    (by
      show (if (0 : ℚ) = 0 then Except.error "ZeroDivisionError" else Except.ok 1) =
        Except.error "ZeroDivisionError"
      rw [if_pos rfl])

/-- C9: determinism and purity.  The output of `points` depends only on the
sample sequence the interval yields: two calls on equivalent intervals
(intervals with equal sample sequences) return equal outputs, for every
curve whose supplied callables are (as modelled) deterministic functions;
the embedding is a pure function, mutating neither the curve nor the
interval. -/
theorem points_deterministic_on_equivalent_intervals (c : Curve)
    (I1 I2 : Interval) (h : I1.samples = I2.samples) :
    c.points I1 = c.points I2 := by
  rw [points_eq_map_pointFromSample, points_eq_map_pointFromSample, h]

/-- C9 witness: the distinct intervals `(0, 2, 1)` and `(0, 5/2, 1)` yield
the same sample list `[0, 1, 2]`, and `Function(fun x => x).points` returns
the same output on both. -/
theorem points_deterministic_on_equivalent_intervals_witness :
    (Curve.Function (fun x => x)).points ⟨0, 2, 1⟩ =
      (Curve.Function (fun x => x)).points ⟨0, 5 / 2, 1⟩ :=
  points_deterministic_on_equivalent_intervals (Curve.Function (fun x => x))
    ⟨0, 2, 1⟩ ⟨0, 5 / 2, 1⟩
    (by rw [samples_zero_two, samples_zero_five_halves])

/-- C10: output-representation asymmetry.  Every point emitted by
`Function.points` or `ParametricFunction.points` is a Python tuple, every
point emitted by `TransformedCurve.points` is a Python list; under the
identity matrix the transformed output is coordinatewise (numerically) equal
to the wrapped curve's output, yet — the wrapped curve being a `Function`
sampled over a non-empty interval — not structurally equal to it. -/
theorem points_tuple_list_asymmetry :
    (∀ (f : ℚ → ℚ) (I : Interval),
       ∀ p ∈ (Curve.Function f).points I, p.isTup = true) ∧
    (∀ (g : ℚ → ℚ × ℚ) (I : Interval),
       ∀ p ∈ (Curve.ParametricFunction g).points I, p.isTup = true) ∧
    (∀ (M : Mat2) (c : Curve) (I : Interval),
       ∀ p ∈ (Curve.TransformedCurve M c).points I, p.isLst = true) ∧
    (∀ (c : Curve) (I : Interval),
       ((Curve.TransformedCurve idMat c).points I).map PyPair.coords =
         (c.points I).map PyPair.coords) ∧
    (∀ (f : ℚ → ℚ) (I : Interval), I.samples ≠ [] →
       (Curve.TransformedCurve idMat (Curve.Function f)).points I ≠
         (Curve.Function f).points I) := by
  refine ⟨?_, ?_, ?_, fun c I => coords_of_identity_transform c I, ?_⟩
  · intro f I p hp
    simp only [Curve.points, List.mem_map] at hp
    obtain ⟨x, _, rfl⟩ := hp
    rfl
  · intro g I p hp
    simp only [Curve.points, List.mem_map] at hp
    obtain ⟨t, _, rfl⟩ := hp
    rfl
  · intro M c I p hp
    rw [transformed_points_eq_map] at hp
    obtain ⟨q, _, rfl⟩ := List.mem_map.mp hp
    rfl
  · intro f I h heq
    cases hs : I.samples with
    | nil => exact h hs
    | cons a l =>
        rw [transformed_points_eq_map] at heq
        simp only [Curve.points, hs, List.map_cons] at heq
        simp [applyMat] at heq

/-- C10 witness: over the interval with sample list `[0]`, the point
`(0, 0)` emitted by `Function(fun x => x).points` is a tuple, and the
identity-transformed output is not structurally equal to the wrapped
`Function`'s output (it holds the list `[0, 0]` instead). -/
theorem points_tuple_list_asymmetry_witness :
    (PyPair.tup 0 0).isTup = true ∧
    (Curve.TransformedCurve idMat (Curve.Function (fun x => x))).points
        ⟨0, 0, 1⟩ ≠ (Curve.Function (fun x => x)).points ⟨0, 0, 1⟩ :=
  ⟨points_tuple_list_asymmetry.1 (fun x => x) ⟨0, 0, 1⟩ (PyPair.tup 0 0)
      (by simp [Curve.points, samples_zero_zero]),
   points_tuple_list_asymmetry.2.2.2.2 (fun x => x) ⟨0, 0, 1⟩
      (by rw [samples_zero_zero]; simp)⟩

end Curvipy
